import Mathlib

/-!
Verification of the turboworks optimization core (`optimize.py`, `manage_db.py`)
against its natural-language specification.  Python scalars are embedded as an
inductive type (integers as `Int`, floats as exact rationals, strings as
`String`); Python lists and tuples of scalars are embedded as a kind-tagged
list, so that the CPython fact that a list never compares equal to a tuple is
preserved.  Fallible code returns `Except PyError`.
-/

set_option autoImplicit false

namespace Turboworks

/-- One Python scalar value: an integer, a float (modelled as an exact
rational), or a string. -/
inductive Scalar where
  | int (n : ℤ)
  | float (q : ℚ)
  | str (s : String)
deriving DecidableEq, Repr

/-- Numeric value of a scalar, used for Python numeric comparison and
arithmetic; strings are mapped to 0 but are never read numerically. -/
def Scalar.toQ : Scalar → ℚ
  | .int n => (n : ℚ)
  | .float q => q
  | .str _ => 0

/-- True iff the scalar is a Python `int`. -/
def Scalar.isInt : Scalar → Bool
  | .int _ => true
  | _ => false

/-- True iff the scalar is a Python `float`. -/
def Scalar.isFloat : Scalar → Bool
  | .float _ => true
  | _ => false

/-- True iff the scalar is a Python `str`. -/
def Scalar.isStr : Scalar → Bool
  | .str _ => true
  | _ => false

/-- True iff the scalar is numeric (`int` or `float`). -/
def Scalar.isNumber (s : Scalar) : Bool := s.isInt || s.isFloat

/-- Python `==` on scalars: numbers compare by value across `int`/`float`,
strings compare by content, and a number never equals a string. -/
def Scalar.pyEq : Scalar → Scalar → Bool
  | .int a, .int b => a == b
  | .int a, .float b => (a : ℚ) == b
  | .float a, .int b => a == (b : ℚ)
  | .float a, .float b => a == b
  | .str a, .str b => a == b
  | _, _ => false

/-- The Python exceptions raised by the embedded code. -/
inductive PyError where
  | valueError (msg : String)
  | typeError (msg : String)
  | keyError (msg : String)
  | indexError (msg : String)
deriving DecidableEq, Repr

/-- Python 2 `<` on scalars (the sources are Python 2 code): numeric
comparison between numbers, lexicographic comparison between strings, and a
mixed number/string comparison never raises — every number orders before
every string. -/
def pyLt (a b : Scalar) : Bool :=
  match a, b with
  | .str x, .str y => decide (x < y)
  | .str _, _ => false
  | _, .str _ => true
  | x, y => decide (x.toQ < y.toQ)

/-- Python 2 `>` on scalars, via `a > b` iff `b < a`. -/
def pyGt (a b : Scalar) : Bool := pyLt b a

/-- Python `==` on two lists of scalars (elementwise, same length). -/
def listPyEq : List Scalar → List Scalar → Bool
  | [], [] => true
  | a :: as, b :: bs => a.pyEq b && listPyEq as bs
  | _, _ => false

/-- Python membership `s in l` for a scalar in a list of scalars. -/
def scalarPyMem (s : Scalar) (l : List Scalar) : Bool := l.any fun t => t.pyEq s

/-- Whether a point is a Python `list` or a Python `tuple`.  The distinction
matters: in CPython a list never compares equal to a tuple. -/
inductive PKind where
  | plist
  | ptuple
deriving DecidableEq, Repr, BEq

/-- One point of the search space: a Python list or tuple of scalars. -/
structure Point where
  kind : PKind
  vals : List Scalar
deriving DecidableEq, Repr

/-- Python `==` on points: a list never equals a tuple, and same-kind
sequences compare elementwise. -/
def Point.pyEq (p q : Point) : Bool := p.kind == q.kind && listPyEq p.vals q.vals

/-- Python membership `p in l` for a point in a list of points. -/
def pyMem (p : Point) (l : List Point) : Bool := l.any fun q => q.pyEq p

/-- Python `l.remove(p)`: drop the first element of `l` equal to `p`. -/
def pyRemove (l : List Point) (p : Point) : List Point :=
  match l with
  | [] => []
  | q :: qs => if q.pyEq p then qs else q :: pyRemove qs p

/-- Modelled from the spec: the type registry `dtypes` lives in the
repository module `references`, which is not among the provided sources.
Per the spec, discrete types are the integer types together with the
categorical (non-numeric) label types; floats make a dimension infinite,
hence are never discrete. -/
def dtypesDiscrete (s : Scalar) : Bool := s.isInt || s.isStr

/-- Modelled from the spec: `dtypes.others`, the non-numeric label types. -/
def dtypesOthers (s : Scalar) : Bool := s.isStr

/-- One declared dimension, as `optimize.py` receives it: a tuple of scalars,
either a `(low, high)` bound pair or a list of categorical labels. -/
abbrev Dim : Type := List Scalar

/-- Indexing `dim[0]`; a default is returned instead of an `IndexError`, and
every theorem quantifies only over dimensions of length at least 1. -/
def dim0 (d : Dim) : Scalar := d.getD 0 (.str "")

/-- Indexing `dim[1]`; a default is returned instead of an `IndexError`, and
every theorem quantifies only over dimensions of length at least 2. -/
def dim1 (d : Dim) : Scalar := d.getD 1 (.str "")

/-- Embedding of `OptTask._is_discrete`: every dimension must have its first
two entries of a discrete type. -/
def is_discrete (dims : List Dim) : Bool :=
  dims.all fun d => dtypesDiscrete (dim0 d) && dtypesDiscrete (dim1 d)

/-- Python `range(lo, hi + 1)` wrapped as scalars. -/
def pyRange (lo hi : ℤ) : List Scalar :=
  (List.range (hi + 1 - lo).toNat).map fun k : ℕ => .int (lo + (k : ℤ))

/-- Embedding of one iteration of the loop in
`OptTask._calculate_discrete_space`: an integer first bound yields
`range(lower, upper + 1)` (a `TypeError` when the second bound is not an
integer, as Python `range` raises); a float first bound raises the
`ValueError`; otherwise the dimension itself is the value list. -/
def dimspaceOf (d : Dim) : Except PyError (List Scalar) :=
  match dim0 d with
  | .int lo =>
    match dim1 d with
    | .int hi => .ok (pyRange lo hi)
    | _ => .error (.typeError "float object cannot be interpreted as an integer")
  | .float _ => .error (.valueError "The dimension is a float. The dimension space is infinite.")
  | .str _ => .ok d

/-- Embedding of `itertools.product`: Cartesian product of the value lists in
declared order, the last list iterating fastest. -/
def cartProd : List (List Scalar) → List (List Scalar)
  | [] => [[]]
  | vs :: rest => vs.flatMap fun v => (cartProd rest).map fun p => v :: p

/-- Embedding of the `total_dimspace` accumulation loop of
`OptTask._calculate_discrete_space`: the value lists of the dimensions in
declared order, stopping at the first dimension that raises. -/
def mapDimspaces : List Dim → Except PyError (List (List Scalar))
  | [] => .ok []
  | d :: ds => do
    let v ← dimspaceOf d
    let vs ← mapDimspaces ds
    .ok (v :: vs)

/-- Embedding of `OptTask._calculate_discrete_space`.  Note the source wraps a
single-dimension space as one-element Python lists, while the multi-dimension
product consists of Python tuples. -/
def calculate_discrete_space (dims : List Dim) : Except PyError (List Point) := do
  let spaces ← mapDimspaces dims
  if dims.length = 1 then
    .ok ((spaces.headD []).map fun v => ⟨.plist, [v]⟩)
  else
    .ok ((cartProd spaces).map fun p => ⟨.ptuple, p⟩)

/-- Embedding of `OptTask._dupe_check`.  `history` is the sequence of `x`
fields read from the collection (BSON arrays, hence Python lists); the source
casts each to a tuple before testing membership in the enumerated space.  The
random draw of `random.choice` is modelled by an arbitrary index `r`. -/
def dupe_check (history : List (List Scalar)) (x : Point) (X_dim : List Dim)
    (r : ℕ) : Except PyError Point := do
  let available ← calculate_discrete_space X_dim
  let available := history.foldl
    (fun av hx => if pyMem ⟨.ptuple, hx⟩ av then pyRemove av ⟨.ptuple, hx⟩ else av) available
  if available.length = 0 then
    .error (.valueError "The search space has been exhausted.")
  else if pyMem x available then
    .ok x
  else
    .ok (available.getD (r % available.length) ⟨.ptuple, []⟩)

/-- One slot of the mutable `dims` list inside `OptTask._Z_dims`: either an
owned two-element list `[low, high]`, or an alias of the single shared
`cat_values` list (the assignment `dims[i] = cat_values` stores a reference,
so later appends to `cat_values` are visible at every such slot). -/
inductive ZEntry where
  | own (a b : Scalar)
  | shared
deriving DecidableEq, Repr

/-- The loop state of `OptTask._Z_dims`: the shared `cat_values` accumulator
and the `dims` slots. -/
structure ZState where
  catVals : List Scalar
  entries : List ZEntry
deriving Repr

/-- Embedding of the inner loop body of `OptTask._Z_dims` at position `i` of
observation `z`.  A non-numeric value is appended to the shared `cat_values`
accumulator (and the slot is pointed at it) only when not already present
anywhere in the accumulator; a numeric value widens the bounds of the list
the slot refers to.  When the slot aliases `cat_values`, the Python 2
comparisons never raise: a numeric value is smaller than every label, so
`z[i] < dim[0]` holds against a label head and the assignment
`dims[i][0] = z[i]` overwrites the first entry of the shared accumulator;
reading `dim[1]` of a one-entry accumulator raises the `IndexError` the
source would. -/
def stepPos (z : List Scalar) (st : ZState) (i : ℕ) : Except PyError ZState :=
  match z.get? i with
  | none => .error (.indexError "list index out of range")
  | some zi =>
    if dtypesOthers zi then
      if scalarPyMem zi st.catVals then .ok st
      else .ok ⟨st.catVals ++ [zi], st.entries.set i .shared⟩
    else
      match st.entries.get? i with
      | none => .ok st
      | some .shared =>
        match st.catVals with
        | [] => .error (.indexError "list index out of range")
        | c0 :: cs =>
          if pyLt zi c0 then .ok ⟨zi :: cs, st.entries⟩
          else
            match cs with
            | [] => .error (.indexError "list index out of range")
            | c1 :: cs2 =>
              if pyGt zi c1 then .ok ⟨c0 :: zi :: cs2, st.entries⟩
              else .ok st
      | some (.own a b) =>
        if pyLt zi a then .ok ⟨st.catVals, st.entries.set i (.own zi b)⟩
        else if pyGt zi b then .ok ⟨st.catVals, st.entries.set i (.own a zi)⟩
        else .ok st

/-- Embedding of one iteration of the outer loop of `OptTask._Z_dims`: the
body runs over every index of `dims` (whose length never changes). -/
def stepObs (st : ZState) (z : List Scalar) : Except PyError ZState :=
  (List.range st.entries.length).foldlM (stepPos z) st

/-- Embedding of the single-document widening step of `OptTask._Z_dims` for
one slot, followed by the final cast to a tuple.  A numeric slot is widened
by the type of its first element: a float low bound becomes
`low - 0.05 * low` and the high bound `high + 0.05 * high`; an integer low
bound becomes `low - 1` and the high bound `high + 1`; the pair is swapped
(into a fresh two-element list) when the widened low exceeds the widened
high, and otherwise the list is updated in place, keeping any further
entries.  A slot aliasing `cat_values` usually starts with a label and is
returned unchanged; when a numeric observation has overwritten the head of
the accumulator, the widening reads `dim[1]`, which in every state the scan
can produce is either missing (the `IndexError` of the source) or a label
(the `TypeError` of Python 2 `label + number`), so a shared widening never
completes after such a mutation and widening the slots against the
accumulator as of the end of the scan matches the source. -/
def widenDim (cv : List Scalar) : ZEntry → Except PyError (List Scalar)
  | .shared =>
    match cv with
    | [] => .error (.indexError "list index out of range")
    | c0 :: cs =>
      match c0 with
      | .str _ => .ok (c0 :: cs)
      | .float qa =>
        match cs with
        | [] => .error (.indexError "list index out of range")
        | c1 :: cs2 => do
          let b2 ← match c1 with
            | .str _ => .error (.typeError "unsupported operand types")
            | v => .ok (Scalar.float (v.toQ + 0.05 * v.toQ))
          let a2 := Scalar.float (qa - 0.05 * qa)
          .ok (if pyGt a2 b2 then [b2, a2] else a2 :: b2 :: cs2)
      | .int na =>
        match cs with
        | [] => .error (.indexError "list index out of range")
        | c1 :: cs2 => do
          let b2 ← match c1 with
            | .int m => .ok (Scalar.int (m + 1))
            | .float q => .ok (Scalar.float (q + 1))
            | .str _ => .error (.typeError "unsupported operand types")
          let a2 := Scalar.int (na - 1)
          .ok (if pyGt a2 b2 then [b2, a2] else a2 :: b2 :: cs2)
  | .own a b =>
    match a with
    | .float qa => do
      let b2 ← match b with
        | .str _ => .error (.typeError "unsupported operand types")
        | v => .ok (Scalar.float (v.toQ + 0.05 * v.toQ))
      let a2 := Scalar.float (qa - 0.05 * qa)
      .ok (if pyGt a2 b2 then [b2, a2] else [a2, b2])
    | .int na => do
      let b2 ← match b with
        | .int m => .ok (Scalar.int (m + 1))
        | .float q => .ok (Scalar.float (q + 1))
        | .str _ => .error (.typeError "unsupported operand types")
      let a2 := Scalar.int (na - 1)
      .ok (if pyGt a2 b2 then [b2, a2] else [a2, b2])
    | .str _ => .ok [a, b]

/-- Embedding of the property `OptTask._Z_dims`, as a function of the `z`
vectors read from the collection.  The bounds start at the first vector, the
two loops run as in the source, and the widening runs unconditionally: the
source compares `dims == check` where `check = dims` binds the same list
object, so the test is always true. -/
def zDims (Z : List (List Scalar)) : Except PyError (List Dim) :=
  match Z with
  | [] => .error (.indexError "list index out of range")
  | z0 :: _ => do
    let st ← Z.foldlM stepObs ⟨[], z0.map fun v => .own v v⟩
    st.entries.mapM (widenDim st.catVals)

/-- One document of the optimization collection, with the fields `run_task`
and `_store` touch.  A missing field is `none` (the document is mid-write). -/
structure StoredDoc where
  x : Option (List Scalar)
  y : Option Scalar
  z : Option (List Scalar)
  x_new : Option (List Scalar)
  z_new : Option (List Scalar)
deriving DecidableEq, Repr

/-- Whether a document carries all of `x`, `y` and `z` — the guard
`all(k in doc for k in ('x','y','z'))` of `run_task`. -/
def isCompleteDoc (d : StoredDoc) : Bool := d.x.isSome && d.y.isSome && d.z.isSome

/-- Embedding of the history-gathering loop of `run_task`: every complete
document contributes `doc['x'] + doc['z']` to `X_tot` and `doc['y']` to `Y`,
in collection order; incomplete documents are skipped silently. -/
def gatherXY : List StoredDoc → List (List Scalar) × List Scalar
  | [] => ([], [])
  | d :: ds =>
    let rest := gatherXY ds
    match d.x, d.y, d.z with
    | some xs, some yv, some zs => ((xs ++ zs) :: rest.1, yv :: rest.2)
    | _, _, _ => rest

/-- A partial update document, as passed to `_store` with `update=True`:
only the fields present are written. -/
structure DocPatch where
  px : Option (List Scalar)
  py : Option Scalar
  pz : Option (List Scalar)
  px_new : Option (List Scalar)
  pz_new : Option (List Scalar)
deriving DecidableEq, Repr

/-- Embedding of `_store` with `update=True`: the Mongo update
`{"$set": spec}` merges the given fields into the document and leaves every
other field unchanged; it never replaces the whole document. -/
def mongoSet (doc : StoredDoc) (p : DocPatch) : StoredDoc :=
  { x := match p.px with | some v => some v | none => doc.x
    y := match p.py with | some v => some v | none => doc.y
    z := match p.pz with | some v => some v | none => doc.z
    x_new := match p.px_new with | some v => some v | none => doc.x_new
    z_new := match p.pz_new with | some v => some v | none => doc.z_new }

/-- Embedding of the tail of `run_task`: the predictor output `x_tot_new` is
split as `x_new, z_new = x_tot_new[:len(x)], x_tot_new[len(x):]`; when the
duplicate check ran, its result replaces `x_new` only; the follow-up
`_store({'z_new': z_new, 'x_new': x_new}, update=True, id=id)` merges the two
fields into the trial document. -/
def finalizeTrial (doc : StoredDoc) (x_tot_new : List Scalar) (xlen : ℕ)
    (dupeSubst : Option (List Scalar)) : StoredDoc :=
  let x_new := x_tot_new.take xlen
  let z_new := x_tot_new.drop xlen
  let x_final := match dupeSubst with
    | some p => p
    | none => x_new
  mongoSet doc ⟨none, none, none, some x_final, some z_new⟩

/-- One document of the legacy `manage_db` schema: an `input` sub-document
and an `output` sub-document, each a Python dict with unique keys, embedded
as association lists. -/
structure DBDoc where
  input : List (String × Scalar)
  output : List (String × Scalar)
deriving DecidableEq, Repr

/-- Python `var in d` for a sub-document. -/
def assocHas (d : List (String × Scalar)) (k : String) : Bool := d.any fun p => p.1 == k

/-- Python `d[var]` for a sub-document (first binding wins; dict keys are
unique). -/
def assocGet (d : List (String × Scalar)) (k : String) : Scalar :=
  ((d.find? fun p => p.1 == k).map Prod.snd).getD (.str "")

/-- Embedding of `ManageDB.get_param`: scan the documents in order, read the
input side first, then the output side, and raise a `KeyError` at the first
document carrying the key on neither side. -/
def get_param (docs : List DBDoc) (var : String) : Except PyError (List Scalar) :=
  match docs with
  | [] => .ok []
  | d :: ds =>
    if assocHas d.input var then
      (get_param ds var).map fun l => assocGet d.input var :: l
    else if assocHas d.output var then
      (get_param ds var).map fun l => assocGet d.output var :: l
    else .error (.keyError var)

/-- Python `int(q)` applied to a float: truncation toward zero. -/
def pyIntOf (q : ℚ) : ℤ := if q < 0 then ⌈q⌉ else ⌊q⌋

/-- Left fold of Python `sum(l)` from a numeric accumulator: adding a string
to a number raises a `TypeError`. -/
def pySumFrom (acc : ℚ) : List Scalar → Except PyError ℚ
  | [] => .ok acc
  | s :: rest =>
    match s with
    | .str _ => .error (.typeError "unsupported operand types for add")
    | v => pySumFrom (acc + v.toQ) rest

/-- Python `sum(l)` with the implicit integer start 0. -/
def pySum (l : List Scalar) : Except PyError ℚ := pySumFrom 0 l

/-- Embedding of `ManageDB.get_avg`: the accumulation loop is identical to
the one in `get_param`; then `total_list[0]` (an `IndexError` on an empty
collection) selects the branch — an integer first value yields
`int(sum/len)` (under Python 2, floor division when every value is an
integer so the sum stayed integral, and otherwise `int` truncating the float
quotient toward zero), a float first value yields `float(sum/len)`, and any
other type leaves the initial `average = 0` untouched. -/
def get_avg (docs : List DBDoc) (var : String) : Except PyError Scalar := do
  let total ← get_param docs var
  match total with
  | [] => .error (.indexError "list index out of range")
  | v0 :: _ =>
    match v0 with
    | .int _ => do
      let s ← pySum total
      .ok (.int (if total.all Scalar.isInt then ⌊s / (total.length : ℚ)⌋
                 else pyIntOf (s / (total.length : ℚ))))
    | .float _ => do
      let s ← pySum total
      .ok (.float (s / (total.length : ℚ)))
    | .str _ => .ok (.int 0)

/-- Embedding of the per-document optimum update of `ManageDB.get_optima`:
the first value initialises the optimum; afterwards the minimum is replaced
when `v < best` and the maximum when `v >= best` (so later ties win).  The
associated parameters are always taken from the input sub-document.  Under
Python 2 the comparisons are total, so the update never raises. -/
def optUpdate (isMin : Bool) (st : Option Scalar × List (String × Scalar))
    (v : Scalar) (params : List (String × Scalar)) :
    Option Scalar × List (String × Scalar) :=
  match st.1 with
  | none => (some v, params)
  | some best =>
    if isMin then
      if pyLt v best then (some v, params) else st
    else
      if pyLt v best then st else (some v, params)

/-- Scanning loop of `ManageDB.get_optima`: input side first, then output
side, `KeyError` at the first document carrying the key on neither side;
on the output side the associated parameters are still `document['input']`. -/
def get_optima_go (isMin : Bool) (var : String) :
    List DBDoc → Option Scalar × List (String × Scalar) →
    Except PyError (Option Scalar × List (String × Scalar))
  | [], st => .ok st
  | d :: ds, st =>
    if assocHas d.input var then
      get_optima_go isMin var ds (optUpdate isMin st (assocGet d.input var) d.input)
    else if assocHas d.output var then
      get_optima_go isMin var ds (optUpdate isMin st (assocGet d.output var) d.input)
    else .error (.keyError var)

/-- Embedding of `ManageDB.get_optima` for the two valid selector strings,
`isMin = true` for `min` and `false` for `max` (the invalid-selector path,
which prints a warning and returns `None`, is outside every claim). -/
def get_optima (docs : List DBDoc) (var : String) (isMin : Bool) :
    Except PyError (Option Scalar × List (String × Scalar)) :=
  get_optima_go isMin var docs (none, [])

/-- An arbitrary Python value supplied as a task parameter, for the type
checks on `wf_creator_args` and `wf_creator_kwargs`. -/
inductive PyParamVal where
  | pylist (xs : List Scalar)
  | pytuple (xs : List Scalar)
  | pydict (kv : List (String × Scalar))
  | pystr (s : String)
  | pyint (n : ℤ)
deriving DecidableEq, Repr

/-- Python `isinstance(v, list)`. -/
def isinstance_list : PyParamVal → Bool
  | .pylist _ => true
  | _ => false

/-- Python `isinstance(v, tuple)`. -/
def isinstance_tuple : PyParamVal → Bool
  | .pytuple _ => true
  | _ => false

/-- Python `isinstance(v, dict)`. -/
def isinstance_dict : PyParamVal → Bool
  | .pydict _ => true
  | _ => false

/-- Embedding of the `wf_creator_args` type check of `run_task`, preserving
the source operator precedence: the condition reads
`(not isinstance(v, list)) or isinstance(v, tuple)`. -/
def check_wf_creator_args (v : PyParamVal) : Except PyError PyParamVal :=
  if !isinstance_list v || isinstance_tuple v then
    .error (.typeError "wf_creator_args should be a list/tuple of positional arguments")
  else .ok v

/-- Embedding of the `wf_creator_kwargs` type check of `run_task`. -/
def check_wf_creator_kwargs (v : PyParamVal) : Except PyError PyParamVal :=
  if !isinstance_dict v then
    .error (.typeError "wf_creator_kwargs should be a dictonary of keyword arguments.")
  else .ok v

/-- Size of one discrete dimension as the claims count it: an integer bound
pair `(lo, hi)` has `hi - lo + 1` values, a categorical dimension has one
value per label. -/
def dimSize (d : Dim) : ℕ :=
  match d with
  | [.int lo, .int hi] => (hi + 1 - lo).toNat
  | _ => d.length

/-- The value sequence of one discrete dimension, per the spec: the integers
of the bound pair in increasing order, or the labels in declared order. -/
def dimValues (d : Dim) : List Scalar :=
  match d with
  | [.int lo, .int hi] => pyRange lo hi
  | _ => d

/-- Well-formedness of one totally discrete dimension as the claims assume
it: an integer bound pair `(lo, hi)` with `lo ≤ hi`, or a non-empty
duplicate-free list of labels. -/
def wfDiscreteDim (d : Dim) : Bool :=
  match d with
  | [.int lo, .int hi] => decide (lo ≤ hi)
  | _ => !d.isEmpty && d.all Scalar.isStr && decide d.Nodup

/-- Well-formedness of one declared dimension for the enumerability claim:
a two-element numeric bound pair, or at least two labels (the discreteness
check reads the first two entries of every dimension). -/
def wfSpaceDim (d : Dim) : Bool :=
  match d with
  | [a, b] => (a.isNumber && b.isNumber) || (a.isStr && b.isStr)
  | _ => decide (2 ≤ d.length) && d.all Scalar.isStr

/-- Whether a dimension fails the per-dimension test of
`OptTask._is_discrete` (its first two entries must be of discrete types). -/
def isBadDim (d : Dim) : Bool := !(dtypesDiscrete (dim0 d) && dtypesDiscrete (dim1 d))

/-- The error `_calculate_discrete_space` raises at a non-discrete
dimension: the float `ValueError` when the first bound is a float, the
`range` `TypeError` when the first bound is an integer but the second is
not an integer. -/
def expectedEnumError (d : Dim) : PyError :=
  if (dim0 d).isFloat then
    .valueError "The dimension is a float. The dimension space is infinite."
  else
    .typeError "float object cannot be interpreted as an integer"

/-- Follows the words of the spec: in the Cartesian-product ordering over the
dimensions in declared order with the last dimension iterating fastest, the
point at index `i` takes, in each dimension, the value whose index is the
corresponding mixed-radix digit of `i`. -/
def specProductAt (dims : List Dim) (i : ℕ) : List Scalar :=
  match dims with
  | [] => []
  | d :: rest =>
    (dimValues d).getD (i / (rest.map dimSize).prod) (.str "") ::
      specProductAt rest (i % (rest.map dimSize).prod)

/-- Whether a `manage_db` document carries the key on neither its input nor
its output side. -/
def lacksBoth (d : DBDoc) (var : String) : Bool :=
  !assocHas d.input var && !assocHas d.output var

/-- Whether an aggregate query failed with the key-not-found error. -/
def isKeyErr {α : Type} : Except PyError α → Bool
  | .error (.keyError _) => true
  | _ => false

/-- Whether a Python error is the key-not-found error. -/
def isKeyE : PyError → Bool
  | .keyError _ => true
  | _ => false

/-- The value each document contributes to an aggregate query: the input
side is read first, then the output side. -/
def docValueOf (d : DBDoc) (var : String) : Scalar :=
  if assocHas d.input var then assocGet d.input var else assocGet d.output var

@[simp] theorem except_ok_bind {α β : Type} (a : α) (f : α → Except PyError β) :
    (Except.ok a >>= f) = f a := rfl

@[simp] theorem except_error_bind {α β : Type} (e : PyError) (f : α → Except PyError β) :
    ((Except.error e : Except PyError α) >>= f) = .error e := rfl

/-- Per-dimension case split for enumerability: a well-formed dimension
either passes the discreteness test and has a value list, or fails it and
makes the enumeration raise its specific error. -/
theorem dimspace_wf_cases (d : Dim) (h : wfSpaceDim d = true) :
    (isBadDim d = false ∧ ∃ vs, dimspaceOf d = .ok vs) ∨
    (isBadDim d = true ∧ dimspaceOf d = .error (expectedEnumError d)) := by
  match d with
  | [] => simp [wfSpaceDim] at h
  | [a] => simp [wfSpaceDim] at h
  | [a, b] =>
    rcases a with n | q | s <;> rcases b with m | r | t <;>
      simp_all [wfSpaceDim, isBadDim, dimspaceOf, dim0, dim1, dtypesDiscrete,
        expectedEnumError, Scalar.isNumber, Scalar.isInt, Scalar.isFloat, Scalar.isStr]
  | a :: b :: c :: rest =>
    simp [wfSpaceDim, List.all_cons] at h
    rcases a with n | q | s <;> rcases b with m | r | t <;>
      simp_all [isBadDim, dimspaceOf, dim0, dim1, dtypesDiscrete, Scalar.isStr]

/-- The dimension-space accumulation succeeds on a discrete well-formed
space, raises the error of the first offending dimension otherwise, and a
non-discrete space always has a first offending dimension. -/
theorem mapDimspaces_cases (dims : List Dim) (h : dims.all wfSpaceDim = true) :
    (is_discrete dims = true → ∃ vs, mapDimspaces dims = .ok vs) ∧
    (∀ d, dims.find? isBadDim = some d →
      mapDimspaces dims = .error (expectedEnumError d)) ∧
    (is_discrete dims = false → ∃ d, dims.find? isBadDim = some d) := by
  induction dims with
  | nil =>
    refine ⟨fun _ => ⟨[], rfl⟩, by simp [List.find?], by simp [is_discrete]⟩
  | cons d ds ih =>
    simp only [List.all_cons, Bool.and_eq_true] at h
    obtain ⟨hd, hds⟩ := h
    obtain ⟨ih1, ih2, ih3⟩ := ih hds
    rcases dimspace_wf_cases d hd with ⟨hgood, vs, hok⟩ | ⟨hbad, herr⟩
    · have hpred : (dtypesDiscrete (dim0 d) && dtypesDiscrete (dim1 d)) = true := by
        simpa [isBadDim] using hgood
      refine ⟨?_, ?_, ?_⟩
      · intro hdisc
        simp only [is_discrete, List.all_cons, Bool.and_eq_true] at hdisc
        obtain ⟨vs2, hvs2⟩ := ih1 (by simpa [is_discrete] using hdisc.2)
        exact ⟨vs :: vs2, by simp [mapDimspaces, hok, hvs2]⟩
      · intro d2 hfind
        rw [List.find?_cons_of_neg _ (by simp [hgood])] at hfind
        simp [mapDimspaces, hok, ih2 d2 hfind]
      · intro hdisc
        simp only [is_discrete, List.all_cons, hpred, Bool.true_and] at hdisc
        obtain ⟨d2, hd2⟩ := ih3 (by simpa [is_discrete] using hdisc)
        exact ⟨d2, by rw [List.find?_cons_of_neg _ (by simp [hgood])]; exact hd2⟩
    · refine ⟨?_, ?_, ?_⟩
      · intro hdisc
        exfalso
        simp only [is_discrete, List.all_cons, Bool.and_eq_true] at hdisc
        simp [isBadDim, hdisc.1] at hbad
      · intro d2 hfind
        rw [List.find?_cons_of_pos _ hbad] at hfind
        cases hfind
        simp [mapDimspaces, herr]
      · intro _
        exact ⟨d, List.find?_cons_of_pos _ hbad⟩

/-- Enumeration succeeds as soon as the dimension value lists were all
built (both the single-dimension wrap and the product branch are pure). -/
theorem calculate_of_spaces_ok (dims : List Dim) (vs : List (List Scalar))
    (h : mapDimspaces dims = .ok vs) :
    ∃ pts, calculate_discrete_space dims = .ok pts := by
  unfold calculate_discrete_space
  rw [h]
  by_cases h1 : dims.length = 1 <;> simp [h1, Except.bind, bind]

/-- Enumeration propagates the error of the value-list accumulation. -/
theorem calculate_of_spaces_err (dims : List Dim) (e : PyError)
    (h : mapDimspaces dims = .error e) :
    calculate_discrete_space dims = .error e := by
  unfold calculate_discrete_space
  rw [h]
  rfl

/-- Characterization of the history-gathering loop of `run_task`: it reads
exactly the complete documents, in collection order. -/
theorem gatherXY_eq (docs : List StoredDoc) :
    gatherXY docs =
      ((docs.filter isCompleteDoc).map fun d => d.x.getD [] ++ d.z.getD [],
       (docs.filter isCompleteDoc).map fun d => d.y.getD (.int 0)) := by
  induction docs with
  | nil => rfl
  | cons d ds ih =>
    cases hx : d.x <;> cases hy : d.y <;> cases hz : d.z <;>
      simp [gatherXY, isCompleteDoc, hx, hy, hz, ih, List.filter_cons]

/-- C1: the duplicate check must never return a point present in the history
and must raise the exhaustion error on the single-point space `[(1,1)]` with
`(1,)` already evaluated.  The code does neither: the single-dimension
enumeration wraps its points as Python lists while history rows are compared
as tuples, so no history row is ever removed, no exhaustion error is raised,
and the evaluated point `[1]` — whose values equal the one history row, which
is also the whole enumerated space — is returned. -/
theorem c1_dupe_check_returns_exhausted_duplicate :
    dupe_check [[.int 1]] ⟨.plist, [.int 1]⟩ [[.int 1, .int 1]] 0 =
      .ok ⟨.plist, [.int 1]⟩ ∧
    listPyEq [Scalar.int 1] [Scalar.int 1] = true ∧
    calculate_discrete_space [[.int 1, .int 1]] = .ok [⟨.plist, [.int 1]⟩] :=
  ⟨rfl, rfl, rfl⟩

/-- C2: on the space `[(1,2)]` with history `{(1,)}` and candidate `(1,)`,
the iteration must return `(2,)`, the only not-yet-evaluated point.  The code
returns `(1,)`: `run_task` passes the just-evaluated input `x` — not the
predictor candidate — to `_dupe_check`, and in one-dimension spaces the
history rows (cast to tuples) never match the list-wrapped enumerated points,
so `(1,)` is still deemed available and is returned unchanged. -/
theorem c2_dupe_check_keeps_evaluated_point :
    dupe_check [[.int 1]] ⟨.plist, [.int 1]⟩ [[.int 1, .int 2]] 0 =
      .ok ⟨.plist, [.int 1]⟩ ∧
    (Point.mk .plist [.int 1] ≠ Point.mk .plist [.int 2]) :=
  ⟨rfl, by decide⟩

/-- C6: per the claim, each feature position with a non-numeric value gets a
categorical dimension holding exactly the distinct labels observed at that
position, also when several positions are categorical.  On the single
observation `[["red", "blue"]]` the code instead points both positions at the
one shared `cat_values` accumulator, so both inferred dimensions are
`["red", "blue"]` although `"blue"` was never observed at position 0 nor
`"red"` at position 1. -/
theorem c6_shared_accumulator_across_positions :
    zDims [[.str "red", .str "blue"]] =
      .ok [[.str "red", .str "blue"], [.str "red", .str "blue"]] :=
  rfl

/-- C9: the claim says the `wf_creator_args` check passes for every sequence
(list or tuple).  The source condition
`not isinstance(v, list) or isinstance(v, tuple)` rejects every tuple, so a
tuple raises the very `TypeError` whose message promises that tuples are
accepted; only lists pass.  The `wf_creator_kwargs` mapping check behaves as
claimed. -/
theorem c9_tuple_args_rejected :
    check_wf_creator_args (.pytuple [.int 1]) =
      .error (.typeError "wf_creator_args should be a list/tuple of positional arguments") ∧
    check_wf_creator_args (.pylist [.int 1]) = .ok (.pylist [.int 1]) ∧
    check_wf_creator_kwargs (.pydict [("k", .int 1)]) = .ok (.pydict [("k", .int 1)]) ∧
    check_wf_creator_kwargs (.pystr "s") =
      .error (.typeError "wf_creator_kwargs should be a dictonary of keyword arguments.") :=
  ⟨rfl, rfl, rfl, rfl⟩

/-- C10: when the duplicate check substitutes a point, only `x_new` changes:
the persisted `z_new` is exactly the slice of the predictor output from
position `len(x)` onward whether or not a substitution happened, and the
follow-up partial `$set` update leaves the stored `x`, `y` and `z` fields of
the trial unchanged. -/
theorem c10_substitution_only_affects_x_new :
    ∀ (doc : StoredDoc) (x_tot_new : List Scalar) (xlen : ℕ) (subst : List Scalar),
      (finalizeTrial doc x_tot_new xlen (some subst)).x = doc.x ∧
      (finalizeTrial doc x_tot_new xlen (some subst)).y = doc.y ∧
      (finalizeTrial doc x_tot_new xlen (some subst)).z = doc.z ∧
      (finalizeTrial doc x_tot_new xlen (some subst)).x_new = some subst ∧
      (finalizeTrial doc x_tot_new xlen (some subst)).z_new = some (x_tot_new.drop xlen) ∧
      (finalizeTrial doc x_tot_new xlen (some subst)).z_new =
        (finalizeTrial doc x_tot_new xlen none).z_new :=
  fun _ _ _ _ => ⟨rfl, rfl, rfl, rfl, rfl, rfl⟩

/-- C5: on exactly one auxiliary observation, dimension inference widens the
degenerate bounds: a single float observation `v` yields
`[v - 0.05*v, v + 0.05*v]`, swapped when the widened low exceeds the widened
high (as for negative `v`); a single integer observation `n` yields
`[n - 1, n + 1]`.  Floats are modelled as exact rationals, matching the
formula the source computes. -/
theorem c5_single_observation_widening :
    (∀ v : ℚ, zDims [[.float v]] =
      .ok [if v - 0.05 * v > v + 0.05 * v
           then [.float (v + 0.05 * v), .float (v - 0.05 * v)]
           else [.float (v - 0.05 * v), .float (v + 0.05 * v)]]) ∧
    (∀ n : ℤ, zDims [[.int n]] = .ok [[.int (n - 1), .int (n + 1)]]) := by
  constructor
  · intro v
    simp [zDims, stepObs, stepPos, widenDim, pyLt, pyGt, dtypesOthers, Scalar.isStr,
      Scalar.toQ, List.foldlM, List.range, List.range.loop, Except.bind, bind, pure,
      Except.pure, List.mapM, List.mapM.loop, lt_irrefl]
  · intro n
    simp [zDims, stepObs, stepPos, widenDim, pyLt, pyGt, dtypesOthers, Scalar.isStr,
      Scalar.toQ, List.foldlM, List.range, List.range.loop, Except.bind, bind, pure,
      Except.pure, List.mapM, List.mapM.loop, lt_irrefl]
    intro h
    exfalso
    linarith

/-- C7: the history read of `run_task` includes a stored record exactly when
the record carries all three of `x`, `y` and `z`: the gathered matrix and
score vector are the map over the complete records only, and inclusion is
stable under reordering of the collection. -/
theorem c7_history_read_completeness :
    ∀ (docs docs2 : List StoredDoc),
      gatherXY docs =
        ((docs.filter isCompleteDoc).map fun d => d.x.getD [] ++ d.z.getD [],
         (docs.filter isCompleteDoc).map fun d => d.y.getD (.int 0)) ∧
      (docs.Perm docs2 →
        (gatherXY docs).1.Perm (gatherXY docs2).1 ∧
        (gatherXY docs).2.Perm (gatherXY docs2).2) := by
  intro docs docs2
  refine ⟨gatherXY_eq docs, fun hp => ?_⟩
  rw [gatherXY_eq docs, gatherXY_eq docs2]
  exact ⟨(hp.filter _).map _, (hp.filter _).map _⟩

/-- Witness for C7: a complete and an incomplete record, in both insertion
orders — the incomplete record (missing `x` and `z`) is excluded, the
complete one contributes `x ++ z` and `y`, and the reads of the two orders
are permutations of each other. -/
theorem c7_history_read_witness :
    ([⟨some [Scalar.int 1], some (Scalar.int 5), some [Scalar.int 2], none, none⟩,
      ⟨none, some (Scalar.int 9), none, none, none⟩] : List StoredDoc).Perm
      [⟨none, some (Scalar.int 9), none, none, none⟩,
       ⟨some [Scalar.int 1], some (Scalar.int 5), some [Scalar.int 2], none, none⟩] ∧
    gatherXY
      [⟨some [Scalar.int 1], some (Scalar.int 5), some [Scalar.int 2], none, none⟩,
       ⟨none, some (Scalar.int 9), none, none, none⟩] =
      ([[Scalar.int 1, Scalar.int 2]], [Scalar.int 5]) ∧
    (gatherXY
      [⟨some [Scalar.int 1], some (Scalar.int 5), some [Scalar.int 2], none, none⟩,
       ⟨none, some (Scalar.int 9), none, none, none⟩]).1.Perm
      (gatherXY
        [⟨none, some (Scalar.int 9), none, none, none⟩,
         ⟨some [Scalar.int 1], some (Scalar.int 5), some [Scalar.int 2], none, none⟩]).1 := by
  have hperm :
      ([⟨some [Scalar.int 1], some (Scalar.int 5), some [Scalar.int 2], none, none⟩,
        ⟨none, some (Scalar.int 9), none, none, none⟩] : List StoredDoc).Perm
        [⟨none, some (Scalar.int 9), none, none, none⟩,
         ⟨some [Scalar.int 1], some (Scalar.int 5), some [Scalar.int 2], none, none⟩] := by
    decide
  have h := c7_history_read_completeness
    [⟨some [Scalar.int 1], some (Scalar.int 5), some [Scalar.int 2], none, none⟩,
     ⟨none, some (Scalar.int 9), none, none, none⟩]
    [⟨none, some (Scalar.int 9), none, none, none⟩,
     ⟨some [Scalar.int 1], some (Scalar.int 5), some [Scalar.int 2], none, none⟩]
  exact ⟨hperm, h.1.trans (by decide), (h.2 hperm).1⟩

/-- C4 (amended): over well-formed declared spaces (every dimension either a
two-element numeric bound pair or a list of at least two labels), enumeration
succeeds exactly when the space is totally discrete; when it is not, the
enumeration raises the error of the first offending dimension — the claimed
"space is not finite" domain error when that dimension has a float low
bound, but the `range` `TypeError` when its low bound is an integer and its
high bound a float. -/
theorem c4_enumeration_iff_discrete (dims : List Dim)
    (h : dims.all wfSpaceDim = true) :
    ((is_discrete dims = true) ↔ ∃ pts, calculate_discrete_space dims = .ok pts) ∧
    (∀ d, dims.find? isBadDim = some d →
      calculate_discrete_space dims = .error (expectedEnumError d)) := by
  obtain ⟨h1, h2, h3⟩ := mapDimspaces_cases dims h
  refine ⟨⟨?_, ?_⟩, ?_⟩
  · intro hd
    obtain ⟨vs, hvs⟩ := h1 hd
    exact calculate_of_spaces_ok dims vs hvs
  · rintro ⟨pts, hpts⟩
    cases hb : is_discrete dims with
    | false =>
      obtain ⟨d, hd⟩ := h3 hb
      rw [calculate_of_spaces_err dims _ (h2 d hd)] at hpts
      exact Except.noConfusion hpts
    | true => rfl
  · intro d hfind
    exact calculate_of_spaces_err dims _ (h2 d hfind)

/-- Counterexample to C4 as stated: the dimension `(1, 2.5)` is a numeric
bound pair with a float bound, so the space is not totally discrete, yet
enumeration does not fail with the claimed "space is not finite" domain
error — it fails with the `TypeError` that Python `range` raises on a float
argument. -/
theorem c4_counterexample_typeerror :
    is_discrete [[.int 1, .float (5 / 2)]] = false ∧
    calculate_discrete_space [[.int 1, .float (5 / 2)]] =
      .error (.typeError "float object cannot be interpreted as an integer") ∧
    PyError.typeError "float object cannot be interpreted as an integer" ≠
      PyError.valueError "The dimension is a float. The dimension space is infinite." :=
  ⟨rfl, rfl, by decide⟩

/-- Witness for C4 at the well-formed totally discrete space
`[(1, 3), ("a", "b")]`: the hypothesis holds by evaluation and enumeration
succeeds. -/
theorem c4_enumeration_witness :
    ([[Scalar.int 1, Scalar.int 3], [Scalar.str "a", Scalar.str "b"]] : List Dim).all
      wfSpaceDim = true ∧
    ((is_discrete [[Scalar.int 1, Scalar.int 3], [Scalar.str "a", Scalar.str "b"]] = true) ↔
      ∃ pts, calculate_discrete_space
        [[Scalar.int 1, Scalar.int 3], [Scalar.str "a", Scalar.str "b"]] = .ok pts) :=
  ⟨by decide,
    (c4_enumeration_iff_discrete
      [[Scalar.int 1, Scalar.int 3], [Scalar.str "a", Scalar.str "b"]] (by decide)).1⟩

/-- Length of the embedded Python `range(lo, hi + 1)`. -/
theorem pyRange_length (lo hi : ℤ) : (pyRange lo hi).length = (hi + 1 - lo).toNat := by
  rw [pyRange, List.length_map, List.length_range]

/-- The embedded Python `range` has no duplicates. -/
theorem pyRange_nodup (lo hi : ℤ) : (pyRange lo hi).Nodup := by
  rw [pyRange]
  refine List.Nodup.map ?_ (List.nodup_range _)
  intro a b hab
  simp only [Scalar.int.injEq, add_right_inj, Nat.cast_inj] at hab
  exact hab

/-- Sum of a constant map. -/
theorem sum_map_constNat {α : Type} (vs : List α) (c : ℕ) :
    (vs.map fun _ => c).sum = vs.length * c := by
  induction vs with
  | nil => simp
  | cons v vs ih => simp [ih, Nat.succ_mul, Nat.add_comm]

/-- The Cartesian product has as many points as the product of the sizes. -/
theorem cartProd_length (ls : List (List Scalar)) :
    (cartProd ls).length = (ls.map List.length).prod := by
  induction ls with
  | nil => rfl
  | cons vs rest ih =>
    rw [cartProd, List.length_flatMap, List.map_cons, List.prod_cons]
    have hc : (List.map (List.length ∘ fun v => (cartProd rest).map (v :: ·)) vs) =
        List.map (fun _ => (rest.map List.length).prod) vs := by
      refine List.map_congr_left fun v _ => ?_
      simp [Function.comp, ih]
    rw [hc, sum_map_constNat]

/-- Every point of the Cartesian product has one entry per dimension. -/
theorem cartProd_mem_length (ls : List (List Scalar)) :
    ∀ p ∈ cartProd ls, p.length = ls.length := by
  induction ls with
  | nil => intro p hp; simp [cartProd] at hp; simp [hp]
  | cons vs rest ih =>
    intro p hp
    simp only [cartProd, List.mem_flatMap, List.mem_map] at hp
    obtain ⟨v, hv, q, hq, rfl⟩ := hp
    simp [ih q hq]

/-- The Cartesian product of duplicate-free value lists is duplicate-free. -/
theorem cartProd_nodup (ls : List (List Scalar)) (h : ∀ l ∈ ls, l.Nodup) :
    (cartProd ls).Nodup := by
  induction ls with
  | nil => simp [cartProd]
  | cons vs rest ih =>
    rw [cartProd, List.nodup_flatMap]
    constructor
    · intro v hv
      refine List.Nodup.map ?_ (ih fun l hl => h l (List.mem_cons_of_mem _ hl))
      intro p q hpq
      exact ((List.cons.injEq v p v q).mp hpq).2
    · have hvs : vs.Nodup := h vs (List.mem_cons_self _ _)
      refine hvs.imp ?_
      intro a b hab x hxa hxb
      simp only [List.mem_map] at hxa hxb
      obtain ⟨p, hp, rfl⟩ := hxa
      obtain ⟨q, hq, heq⟩ := hxb
      exact hab ((List.cons.injEq b q a p).mp heq).1.symm

/-- Indexing a flat map whose blocks all have length `M`: entry `i` sits in
block `i / M` at offset `i % M`. -/
theorem flatMap_uniform_getElem {α β : Type} (vs : List α) (f : α → List β) (M : ℕ)
    (hM : 0 < M) (hlen : ∀ v, (f v).length = M) :
    ∀ i : ℕ, (vs.flatMap f)[i]? = vs[i / M]?.bind fun v => (f v)[i % M]? := by
  induction vs with
  | nil => intro i; simp
  | cons v vs ih =>
    intro i
    rw [List.flatMap_cons, List.getElem?_append, hlen v]
    by_cases hi : i < M
    · rw [if_pos hi, Nat.div_eq_of_lt hi, Nat.mod_eq_of_lt hi]
      simp
    · have hMi : M ≤ i := Nat.le_of_not_lt hi
      rw [if_neg hi, ih (i - M), Nat.div_eq_sub_div hM hMi, Nat.mod_eq_sub_mod hMi]
      simp

/-- On a well-formed discrete dimension the enumeration loop yields exactly
the dimension value list, whose length is the dimension size, without
duplicates, and non-empty. -/
theorem dimValues_wf (d : Dim) (h : wfDiscreteDim d = true) :
    dimspaceOf d = .ok (dimValues d) ∧ (dimValues d).length = dimSize d ∧
    (dimValues d).Nodup ∧ 0 < (dimValues d).length := by
  match d with
  | [] => simp [wfDiscreteDim] at h
  | [a] =>
    rcases a with n | q | s <;>
      simp_all [wfDiscreteDim, dimValues, dimspaceOf, dimSize, dim0, dim1, Scalar.isStr]
  | [a, b] =>
    rcases a with n | q | s <;> rcases b with m | r | t <;>
      simp_all [wfDiscreteDim, dimValues, dimspaceOf, dimSize, dim0, dim1, Scalar.isStr]
    exact ⟨pyRange_length n m, pyRange_nodup n m, by rw [pyRange_length]; omega⟩
  | a :: b :: c :: rest =>
    rcases a with n | q | s <;>
      simp_all [wfDiscreteDim, dimValues, dimspaceOf, dimSize, dim0, dim1, Scalar.isStr,
        List.all_cons]

/-- On a well-formed totally discrete space the value-list accumulation
succeeds with the value lists of all dimensions in order. -/
theorem mapDimspaces_discrete (dims : List Dim) (h : dims.all wfDiscreteDim = true) :
    mapDimspaces dims = .ok (dims.map dimValues) := by
  induction dims with
  | nil => rfl
  | cons d ds ih =>
    simp only [List.all_cons, Bool.and_eq_true] at h
    simp [mapDimspaces, (dimValues_wf d h.1).1, ih h.2]

/-- The enumerated Cartesian product realizes the mixed-radix ordering the
spec describes: the last dimension iterates fastest. -/
theorem cartProd_dimValues_getElem (dims : List Dim)
    (h : dims.all wfDiscreteDim = true) :
    ∀ i : ℕ, i < (cartProd (dims.map dimValues)).length →
      (cartProd (dims.map dimValues))[i]? = some (specProductAt dims i) := by
  induction dims with
  | nil =>
    intro i hi
    have hz : i = 0 := by
      simp only [List.map_nil, cartProd, List.length_cons, List.length_nil] at hi
      omega
    subst hz
    rfl
  | cons d rest ih =>
    intro i hi
    simp only [List.all_cons, Bool.and_eq_true] at h
    have hM : (cartProd (rest.map dimValues)).length = (rest.map dimSize).prod := by
      rw [cartProd_length, List.map_map]
      congr 1
      refine List.map_congr_left fun d2 hd2 => ?_
      exact (dimValues_wf d2 (by exact List.all_eq_true.mp h.2 d2 hd2)).2.1
    have hMpos : 0 < (cartProd (rest.map dimValues)).length := by
      rw [cartProd_length]
      refine List.prod_pos fun a ha => ?_
      simp only [List.map_map, List.mem_map] at ha
      obtain ⟨d2, hd2, rfl⟩ := ha
      exact (dimValues_wf d2 (List.all_eq_true.mp h.2 d2 hd2)).2.2.2
    rw [List.map_cons, cartProd,
      flatMap_uniform_getElem (dimValues d)
        (fun v => (cartProd (rest.map dimValues)).map (v :: ·))
        (cartProd (rest.map dimValues)).length hMpos
        (fun v => List.length_map _ _) i]
    have hlen : (cartProd ((dimValues d) :: rest.map dimValues)).length =
        (dimValues d).length * (cartProd (rest.map dimValues)).length := by
      rw [cartProd_length, List.map_cons, List.prod_cons, cartProd_length]
    rw [List.map_cons, cartProd] at hi
    have hi2 : i < (dimValues d).length * (cartProd (rest.map dimValues)).length := by
      have := hlen
      rw [cartProd] at this
      omega
    have hdiv : i / (cartProd (rest.map dimValues)).length < (dimValues d).length :=
      Nat.div_lt_of_lt_mul (by rw [Nat.mul_comm] at hi2; exact hi2)
    have hmod : i % (cartProd (rest.map dimValues)).length <
        (cartProd (rest.map dimValues)).length := Nat.mod_lt _ hMpos
    rw [List.getElem?_eq_getElem hdiv]
    rw [Option.some_bind]
    rw [List.getElem?_map, ih h.2 _ hmod]
    show some (_ :: _) = some (specProductAt (d :: rest) i)
    rw [specProductAt]
    congr 1
    · rw [← hM]
      rw [List.getD_eq_getElem?_getD, List.getElem?_eq_getElem hdiv]
      rfl

/-- A flat map of singletons is a map. -/
theorem flatMap_singleton_vals (vs : List Scalar) :
    (vs.flatMap fun v => [[v]]) = vs.map fun v => [v] := by
  induction vs with
  | nil => rfl
  | cons v vs ih => simp [List.flatMap_cons, ih]

/-- On a well-formed totally discrete space, enumeration succeeds and the
value rows of its points are exactly the Cartesian product of the dimension
value lists (single-dimension spaces wrap values as one-element lists, which
agrees with the one-dimension product). -/
theorem calculate_vals_discrete (dims : List Dim) (h : dims.all wfDiscreteDim = true) :
    ∃ pts, calculate_discrete_space dims = .ok pts ∧
      pts.map Point.vals = cartProd (dims.map dimValues) ∧
      (∀ p1 ∈ pts, ∀ p2 ∈ pts, p1.kind = p2.kind) := by
  have hmap := mapDimspaces_discrete dims h
  unfold calculate_discrete_space
  rw [hmap]
  by_cases h1 : dims.length = 1
  · match dims, h1 with
    | [d], _ =>
      refine ⟨(dimValues d).map fun v => Point.mk .plist [v], by simp, ?_, ?_⟩
      · simp only [List.map_map, List.map_cons, List.map_nil, cartProd,
          flatMap_singleton_vals]
        rfl
      · intro p1 hp1 p2 hp2
        simp only [List.mem_map] at hp1 hp2
        obtain ⟨v1, _, rfl⟩ := hp1
        obtain ⟨v2, _, rfl⟩ := hp2
        rfl
  · refine ⟨(cartProd (dims.map dimValues)).map fun p => Point.mk .ptuple p,
      by simp [h1], ?_, ?_⟩
    · rw [List.map_map]
      exact List.map_id _
    · intro p1 hp1 p2 hp2
      simp only [List.mem_map] at hp1 hp2
      obtain ⟨v1, _, rfl⟩ := hp1
      obtain ⟨v2, _, rfl⟩ := hp2
      rfl

/-- C3: on a well-formed totally discrete space with dimension sizes
`s1..sn`, enumeration returns exactly `s1 * ... * sn` pairwise-distinct
points, each of length `n`, ordered as the Cartesian product over the
dimensions in declared order with the last dimension iterating fastest
(point `i` takes in each dimension the mixed-radix digit of `i`). -/
theorem c3_enumeration_product (dims : List Dim) (h : dims.all wfDiscreteDim = true) :
    ∃ pts, calculate_discrete_space dims = .ok pts ∧
      pts.length = (dims.map dimSize).prod ∧
      pts.Nodup ∧
      (∀ p ∈ pts, p.vals.length = dims.length) ∧
      (∀ i : ℕ, i < pts.length →
        (pts.map Point.vals)[i]? = some (specProductAt dims i)) := by
  obtain ⟨pts, hcalc, hvals, hkind⟩ := calculate_vals_discrete dims h
  have hwf : ∀ d ∈ dims, wfDiscreteDim d = true := List.all_eq_true.mp h
  have hlenmap : pts.length = (cartProd (dims.map dimValues)).length := by
    rw [← hvals, List.length_map]
  refine ⟨pts, hcalc, ?_, ?_, ?_, ?_⟩
  · rw [hlenmap, cartProd_length, List.map_map]
    congr 1
    exact List.map_congr_left fun d hd => (dimValues_wf d (hwf d hd)).2.1
  · have hnd : (pts.map Point.vals).Nodup := by
      rw [hvals]
      refine cartProd_nodup _ fun l hl => ?_
      simp only [List.mem_map] at hl
      obtain ⟨d, hd, rfl⟩ := hl
      exact (dimValues_wf d (hwf d hd)).2.2.1
    exact hnd.of_map
  · intro p hp
    have hmem : p.vals ∈ pts.map Point.vals := List.mem_map_of_mem _ hp
    rw [hvals] at hmem
    rw [cartProd_mem_length _ _ hmem, List.length_map]
  · intro i hi
    rw [hvals]
    exact cartProd_dimValues_getElem dims h i (by rw [← hlenmap]; exact hi)

/-- Witness for C3 at the space `[(1, 2), ("red", "blue")]` of the source
docstring example: four distinct points of length two in product order. -/
theorem c3_enumeration_witness :
    ([[Scalar.int 1, Scalar.int 2], [Scalar.str "red", Scalar.str "blue"]] : List Dim).all
      wfDiscreteDim = true ∧
    ∃ pts, calculate_discrete_space
        [[Scalar.int 1, Scalar.int 2], [Scalar.str "red", Scalar.str "blue"]] = .ok pts ∧
      pts.length = 4 ∧ pts.Nodup ∧ (∀ p ∈ pts, p.vals.length = 2) ∧
      (∀ i : ℕ, i < pts.length → (pts.map Point.vals)[i]? =
        some (specProductAt
          [[Scalar.int 1, Scalar.int 2], [Scalar.str "red", Scalar.str "blue"]] i)) := by
  obtain ⟨pts, h1, h2, h3, h4, h5⟩ := c3_enumeration_product
    [[Scalar.int 1, Scalar.int 2], [Scalar.str "red", Scalar.str "blue"]] (by decide)
  exact ⟨by decide, pts, h1, h2.trans (by decide), h3, h4, h5⟩

/-- Complete case split for `get_param`: either every document carries the
key (input side read first) and the values come back in order, or some
document lacks it on both sides and the scan raises the key error. -/
theorem get_param_split (var : String) :
    ∀ docs : List DBDoc,
      ((∀ d ∈ docs, lacksBoth d var = false) ∧
        get_param docs var = .ok (docs.map fun d => docValueOf d var)) ∨
      ((∃ d ∈ docs, lacksBoth d var = true) ∧
        ∃ m, get_param docs var = .error (.keyError m)) := by
  intro docs
  induction docs with
  | nil => exact Or.inl ⟨by simp, rfl⟩
  | cons d ds ih =>
    by_cases hd : lacksBoth d var = true
    · refine Or.inr ⟨⟨d, List.mem_cons_self _ _, hd⟩, var, ?_⟩
      simp only [lacksBoth, Bool.and_eq_true, Bool.not_eq_true'] at hd
      simp [get_param, hd.1, hd.2]
    · have hd2 : lacksBoth d var = false := Bool.eq_false_iff.mpr hd
      have hval : get_param (d :: ds) var =
          (get_param ds var).map fun l => docValueOf d var :: l := by
        simp only [lacksBoth, Bool.and_eq_false_iff, Bool.not_eq_false] at hd2
        rcases hd2 with h1 | h1
        · have h1b : assocHas d.input var = true := by simpa using h1
          simp [get_param, docValueOf, h1b]
        · have h1b : assocHas d.output var = true := by simpa using h1
          by_cases h2 : assocHas d.input var
          · simp [get_param, docValueOf, h2]
          · simp [get_param, docValueOf, Bool.eq_false_iff.mpr h2, h1b]
      rcases ih with ⟨hnone, hok⟩ | ⟨⟨d2, hd2m, hd2l⟩, m, herr⟩
      · refine Or.inl ⟨?_, ?_⟩
        · intro d3 hd3
          rcases List.mem_cons.mp hd3 with rfl | hmem
          · exact Bool.eq_false_iff.mpr hd
          · exact hnone d3 hmem
        · rw [hval, hok]
          rfl
      · refine Or.inr ⟨⟨d2, List.mem_cons_of_mem _ hd2m, hd2l⟩, m, ?_⟩
        rw [hval, herr]
        rfl

/-- The key-error test on a raised error is the error-class test. -/
theorem isKeyErr_error {α : Type} (e : PyError) :
    isKeyErr (Except.error e : Except PyError α) = isKeyE e := by
  cases e <;> rfl

/-- The summation loop never raises the key error. -/
theorem pySumFrom_err (l : List Scalar) :
    ∀ (acc : ℚ) (e : PyError), pySumFrom acc l = .error e → isKeyE e = false := by
  induction l with
  | nil =>
    intro acc e h
    simp [pySumFrom] at h
  | cons s rest ih =>
    intro acc e h
    rcases s with n | q | t
    · exact ih _ e h
    · exact ih _ e h
    · simp only [pySumFrom, Except.error.injEq] at h
      subst h
      rfl

/-- When the value scan succeeds, `get_avg` cannot raise the key error
(its remaining failure modes are the empty-collection `IndexError` and the
mixed-type `TypeError` of the sum). -/
theorem get_avg_no_keyerr_of_ok (docs : List DBDoc) (var : String)
    (vals : List Scalar) (hok : get_param docs var = .ok vals) :
    isKeyErr (get_avg docs var) = false := by
  rw [get_avg, hok]
  simp only [except_ok_bind]
  match vals with
  | [] => rfl
  | v0 :: rest =>
    rcases v0 with n | q | t
    · rcases h2 : pySum (Scalar.int n :: rest) with e | s
      · simp only [h2, except_error_bind, isKeyErr_error]
        exact pySumFrom_err (Scalar.int n :: rest) 0 e h2
      · simp only [h2]
        rfl
    · rcases h2 : pySum (Scalar.float q :: rest) with e | s
      · simp only [h2, except_error_bind, isKeyErr_error]
        exact pySumFrom_err (Scalar.float q :: rest) 0 e h2
      · simp only [h2]
        rfl
    · rfl

/-- The average query raises the key error exactly when some document lacks
the key on both sides. -/
theorem get_avg_keyerr_iff (docs : List DBDoc) (var : String) :
    isKeyErr (get_avg docs var) = true ↔ ∃ d ∈ docs, lacksBoth d var = true := by
  rcases get_param_split var docs with ⟨hnone, hok⟩ | ⟨⟨d2, hmem, hlack⟩, m, herr⟩
  · rw [get_avg_no_keyerr_of_ok docs var _ hok]
    constructor
    · intro hkey
      exact absurd hkey (by simp)
    · rintro ⟨d2, hmem, hlack⟩
      exact absurd (hnone d2 hmem) (by simp [hlack])
  · rw [get_avg, herr]
    exact ⟨fun _ => ⟨d2, hmem, hlack⟩, fun _ => rfl⟩

/-- Complete case split for the optimum scan: either every document carries
the key and the scan succeeds, or some document lacks it on both sides and
the scan raises the key error.  Under Python 2 the optimum comparisons are
total, so no other failure mode exists. -/
theorem go_split (isMin : Bool) (var : String) :
    ∀ (docs : List DBDoc) (st : Option Scalar × List (String × Scalar)),
      ((∀ d ∈ docs, lacksBoth d var = false) ∧
        ∃ st2, get_optima_go isMin var docs st = .ok st2) ∨
      ((∃ d ∈ docs, lacksBoth d var = true) ∧
        get_optima_go isMin var docs st = .error (.keyError var)) := by
  intro docs
  induction docs with
  | nil =>
    intro st
    exact Or.inl ⟨by simp, st, rfl⟩
  | cons d ds ih =>
    intro st
    by_cases hl : lacksBoth d var = true
    · have hboth : assocHas d.input var = false ∧ assocHas d.output var = false := by
        simpa [lacksBoth] using hl
      refine Or.inr ⟨⟨d, List.mem_cons_self _ _, hl⟩, ?_⟩
      rw [get_optima_go, if_neg (by simp [hboth.1]), if_neg (by simp [hboth.2])]
    · have hl2 : lacksBoth d var = false := Bool.eq_false_iff.mpr hl
      have hstep : ∃ st2, get_optima_go isMin var (d :: ds) st =
          get_optima_go isMin var ds st2 := by
        by_cases h1 : assocHas d.input var
        · exact ⟨_, by rw [get_optima_go, if_pos h1]⟩
        · have h2 : assocHas d.output var = true := by
            rcases hb : assocHas d.output var
            · exact absurd (by simp [lacksBoth, Bool.eq_false_iff.mpr h1, hb]) hl
            · rfl
          exact ⟨_, by rw [get_optima_go, if_neg h1, if_pos h2]⟩
      obtain ⟨st2, hst2⟩ := hstep
      rw [hst2]
      rcases ih st2 with ⟨hnone, hok⟩ | ⟨⟨d2, hm, hlk⟩, herr⟩
      · refine Or.inl ⟨?_, hok⟩
        intro d3 hd3
        rcases List.mem_cons.mp hd3 with rfl | hm3
        · exact hl2
        · exact hnone d3 hm3
      · exact Or.inr ⟨⟨d2, List.mem_cons_of_mem _ hm, hlk⟩, herr⟩

/-- C8 (amended): the aggregate queries scan each record's input side first,
then its output side, and raise the key-not-found error exactly when SOME
record lacks the key on both sides (the scan raises at the first such
record).  When every record carries the key on either side, `get_param`
returns the input-side-first values in record order and `get_optima`
succeeds; under Python 2 the optimum comparisons are total, so the key
error is the only error these two queries can raise (`get_avg` can still
fail differently on an empty collection or a non-summable value type). -/
theorem c8_aggregate_key_errors (docs : List DBDoc) (var : String) (isMin : Bool) :
    (isKeyErr (get_param docs var) = true ↔ ∃ d ∈ docs, lacksBoth d var = true) ∧
    (isKeyErr (get_avg docs var) = true ↔ ∃ d ∈ docs, lacksBoth d var = true) ∧
    (isKeyErr (get_optima docs var isMin) = true ↔ ∃ d ∈ docs, lacksBoth d var = true) ∧
    ((∀ d ∈ docs, lacksBoth d var = false) →
      get_param docs var = .ok (docs.map fun d => docValueOf d var) ∧
      ∃ res, get_optima docs var isMin = .ok res) := by
  have hdef : get_optima docs var isMin = get_optima_go isMin var docs (none, []) := rfl
  refine ⟨?_, get_avg_keyerr_iff docs var, ?_, ?_⟩
  · rcases get_param_split var docs with ⟨hnone, hok⟩ | ⟨⟨d2, hm, hl⟩, m, herr⟩
    · rw [hok]
      exact ⟨fun h => Bool.noConfusion h,
        fun ⟨d2, hm, hl⟩ => absurd (hnone d2 hm) (by simp [hl])⟩
    · rw [herr]
      exact ⟨fun _ => ⟨d2, hm, hl⟩, fun _ => rfl⟩
  · rcases go_split isMin var docs (none, []) with ⟨hnone, st2, hok⟩ | ⟨⟨d2, hm, hl⟩, herr⟩
    · rw [hdef, hok]
      exact ⟨fun h => Bool.noConfusion h,
        fun ⟨d2, hm, hl⟩ => absurd (hnone d2 hm) (by simp [hl])⟩
    · rw [hdef, herr]
      exact ⟨fun _ => ⟨d2, hm, hl⟩, fun _ => rfl⟩
  · intro hnone
    constructor
    · rcases get_param_split var docs with ⟨-, hok⟩ | ⟨⟨d2, hm, hl⟩, -, -⟩
      · exact hok
      · exact absurd (hnone d2 hm) (by simp [hl])
    · rcases go_split isMin var docs (none, []) with ⟨-, st2, hok⟩ | ⟨⟨d2, hm, hl⟩, -⟩
      · exact ⟨st2, by rw [hdef, hok]⟩
      · exact absurd (hnone d2 hm) (by simp [hl])

/-- Counterexample to C8 as stated: in a collection where the first record
carries the key `a` but the second record lacks it on both sides, the claim
says the query returns the aggregate over the carrying records without
failing; the code raises the key error at the second record. -/
theorem c8_counterexample_partial_key :
    assocHas (DBDoc.mk [("a", Scalar.int 1)] []).input "a" = true ∧
    get_param [⟨[("a", Scalar.int 1)], []⟩, ⟨[("b", Scalar.int 2)], []⟩] "a" =
      .error (.keyError "a") :=
  ⟨rfl, rfl⟩

/-- Witness for C8 on a two-record collection carrying the key on the input
side of one record and the output side of the other: no key error is raised
by the optimum query, and the values are read input side first, in record
order. -/
theorem c8_aggregate_witness :
    (isKeyErr (get_optima
        [⟨[("a", Scalar.int 1)], []⟩, ⟨[], [("a", Scalar.int 3)]⟩] "a" true) = true ↔
      ∃ d ∈ ([⟨[("a", Scalar.int 1)], []⟩, ⟨[], [("a", Scalar.int 3)]⟩] : List DBDoc),
        lacksBoth d "a" = true) ∧
    get_param [⟨[("a", Scalar.int 1)], []⟩, ⟨[], [("a", Scalar.int 3)]⟩] "a" =
      .ok [Scalar.int 1, Scalar.int 3] := by
  have h := c8_aggregate_key_errors
    [⟨[("a", Scalar.int 1)], []⟩, ⟨[], [("a", Scalar.int 3)]⟩] "a" true
  exact ⟨h.2.2.1, ((h.2.2.2 (by decide)).1).trans rfl⟩

end Turboworks
